import Mathlib

/-!
Verification of the CamtrawlDownloader metadata engine (`src/CamtrawlMetadata.py`,
class `CamTrawlMetadata`) against its natural-language specification.

The embedding below is a shallow model of the Python source:

* Python dicts become association lists with insertion-order semantics
  (`dictInsert` updates the value in place when the key is present, appends
  otherwise, exactly like `d[k] = v`), so lists built through `dictInsert`
  always have pairwise-distinct keys.
* SQLite rows become Lean structures; timestamps are modelled as rationals
  (the source always succeeds in `strptime` on well-formed stores, and the
  claims under verification do not depend on the calendar encoding).  The
  sentinel time-window strings "1900-01-01 ..." / "2999-01-01 ..." are
  modelled as absent bounds.
* `float(...)` on a payload field is modelled by `pyFloat?`, a parser for
  plain signed decimal literals over ℚ (the format produced by the sensors
  this code reads); a Python exception becomes `Option.none`.
* A Python statement that raises (the unbound loop variable at
  `CamtrawlMetadata.py:799` when there are no cameras, and `min()` over an
  empty key set inside `getTimespan`) makes the modelled operation return
  `none`.
* `pynmea2.parse` is an external library; `getLocations` takes the parser as
  an explicit argument producing `Option Nmea` (also `none` when the parsed
  message lacks `latitude`/`longitude` attributes).
* The asynchronous-sensor load of `query` (lines 849-886) touches state no
  claim mentions and cannot fail on a well-formed store; it is omitted from
  the state model.  `str.lower` is modelled for ASCII, which covers every
  string the migrations and resolvers compare.
-/

/-- Python dict assignment `d[k] = v`: replace the value at `k` in place if
the key is present, otherwise append the binding. -/
def dictInsert {κ α : Type} [DecidableEq κ] : List (κ × α) → κ → α → List (κ × α)
  | [], k, v => [(k, v)]
  | p :: rest, k, v => if p.1 = k then (k, v) :: rest else p :: dictInsert rest k v

/-- Python dict lookup `d[k]` / `d.get(k)` as an `Option`. -/
def dictLookup {κ α : Type} [DecidableEq κ] : List (κ × α) → κ → Option α
  | [], _ => none
  | p :: rest, k => if p.1 = k then some p.2 else dictLookup rest k

/-- Python membership test `k in d`. -/
def dictHasKey {κ α : Type} [DecidableEq κ] (l : List (κ × α)) (k : κ) : Bool :=
  l.any (fun p => p.1 = k)

/-- Python `del d[k]` on a dict (association lists built with `dictInsert`
have distinct keys, so removing every pair with key `k` coincides with
deleting the single entry). -/
def dictErase {κ α : Type} [DecidableEq κ] (l : List (κ × α)) (k : κ) : List (κ × α) :=
  l.filter (fun p => p.1 ≠ k)

/-- First-occurrence deduplication, the row order a `SELECT DISTINCT`
returns for these tables. -/
def dedupFirst {α : Type} [DecidableEq α] : List α → List α :=
  go []
where
  go (seen : List α) : List α → List α
    | [] => []
    | a :: rest => if a ∈ seen then go seen rest else a :: go (a :: seen) rest

/-- ASCII `str.lower` on a single character. -/
def lowerChar (c : Char) : Char :=
  if 'A' ≤ c ∧ c ≤ 'Z' then Char.ofNat (c.toNat + 32) else c

/-- ASCII `str.lower`. -/
def lowerStr (s : String) : String :=
  String.mk (s.data.map lowerChar)

/-- ASCII `str.upper`. -/
def upperChar (c : Char) : Char :=
  if 'a' ≤ c ∧ c ≤ 'z' then Char.ofNat (c.toNat - 32) else c

/-- ASCII `str.upper`. -/
def upperStr (s : String) : String :=
  String.mk (s.data.map upperChar)

/-- Python `s.split(sep)` for a one-character separator (the only kind the
source passes): `"a,,b".split(",") = ["a", "", "b"]`, `"".split(",") = [""]`. -/
def splitOnChar (sep : Char) : List Char → List (List Char)
  | [] => [[]]
  | c :: rest =>
    match splitOnChar sep rest with
    | [] => [[c]]
    | h :: t => if c = sep then [] :: h :: t else (c :: h) :: t

/-- Value of a nonempty all-digit character list. -/
def digitsVal? (cs : List Char) : Option Nat :=
  if cs ≠ [] ∧ cs.all Char.isDigit then
    some (cs.foldl (fun a c => a * 10 + (c.toNat - 48)) 0)
  else none

/-- Python `float(s)` restricted to plain signed decimal literals (the
grammar of the numeric fields this code parses): an optional sign, then
digits with at most one decimal point and at least one digit overall.
Anything else is a parse failure (`none`), the model of the caught
`ValueError`. -/
def pyFloat? (cs : List Char) : Option ℚ :=
  match cs with
  | '-' :: rest => (pyFloatUnsigned? rest).map (fun q => mkRat (-q.num) q.den)
  | '+' :: rest => pyFloatUnsigned? rest
  | _ => pyFloatUnsigned? cs
where
  digitsNat (cs : List Char) : Nat :=
    cs.foldl (fun n c => n * 10 + (c.toNat - 48)) 0
  pyFloatUnsigned? (cs : List Char) : Option ℚ :=
    match splitOnChar '.' cs with
    | [a] => (digitsVal? a).map (fun n => mkRat n 1)
    | [a, b] =>
      if a = [] ∧ b = [] then none
      else if (a.all Char.isDigit ∧ b.all Char.isDigit) then
        some (mkRat (digitsNat a * 10 ^ b.length + digitsNat b) (10 ^ b.length))
      else none
    | _ => none

/-- Synchronous sensor data as loaded by `query`: sensor id → message
header → image number → raw payload (`self.sensorData` without the two
time maps, which no resolver reads). -/
abbrev SensorDict : Type := List (String × List (String × List (Int × String)))

/-- The field extraction of `getDepths` (CamtrawlMetadata.py:186-187):
`float(data.split(parseChar)[depthFieldNum])`, with any exception giving
`none`. -/
def depthField? (data : String) (fieldNum : Nat) (parseChar : Char) : Option ℚ :=
  ((splitOnChar parseChar data.data).get? fieldNum).bind pyFloat?

/-- One iteration of the `getDepths` loop (CamtrawlMetadata.py:184-195):
state is (depthMin, depthMax, depths dict).  A parsed depth first checks
`depth > depthMax` and only in the `elif` checks `depth < depthMin`; a
parse failure stores `None` and leaves the bounds alone. -/
def depthStep (fieldNum : Nat) (parseChar : Char)
    (acc : ℚ × ℚ × List (Int × Option ℚ)) (row : Int × String) :
    ℚ × ℚ × List (Int × Option ℚ) :=
  match depthField? row.2 fieldNum parseChar with
  | some d =>
    if d > acc.2.1 then (acc.1, d, dictInsert acc.2.2 row.1 (some d))
    else if d < acc.1 then (d, acc.2.1, dictInsert acc.2.2 row.1 (some d))
    else (acc.1, acc.2.1, dictInsert acc.2.2 row.1 (some d))
  | none => (acc.1, acc.2.1, dictInsert acc.2.2 row.1 none)

/-- Model of `CamTrawlMetadata.getDepths` (CamtrawlMetadata.py:154-197), as a function
of the loaded synchronous sensor data (the lazy `self.query()` on line 175
re-populates that data and is modelled at the `query` level).  Returns
(depthMin, depthMax, per-frame depths). -/
def getDepthsF (sensorData : SensorDict) (depthSensorID : String)
    (depthSensorHeader : String) (depthFieldNum : Nat) (parseChar : Char) :
    ℚ × ℚ × List (Int × Option ℚ) :=
  match dictLookup sensorData depthSensorID with
  | none => (999999, -999999, [])
  | some headers =>
    match dictLookup headers depthSensorHeader with
    | none => (999999, -999999, [])
    | some rows => rows.foldl (depthStep depthFieldNum parseChar) (999999, -999999, [])

example : pyFloat? "15.5".data = some (mkRat 31 2) := by decide
example : pyFloat? "-999.0".data = some (-999 : ℚ) := by decide
example : pyFloat? "".data = none := by decide
example : depthField? "$OHPR,1,2,3,-999.0,15.5,0,0,0*00" 5 ',' = some (mkRat 31 2) := by decide

/-- A positioning message as produced by `pynmea2.parse` when it succeeds
and the message carries `latitude`/`longitude` attributes; `status` and
`quality` model the optional validity attributes the source tests with
`hasattr`. -/
structure Nmea where
  lat : ℚ
  lon : ℚ
  status : Option String
  quality : Option Int
deriving DecidableEq

/-- Whether a parsed positioning message contributes a fix
(CamtrawlMetadata.py:242-252): a `status` attribute must lower-case to
`"a"`; failing that, a `quality` attribute must be positive; a message with
neither attribute is accepted unconditionally. -/
def nmeaFires (m : Nmea) : Bool :=
  match m.status with
  | some s => lowerStr s = "a"
  | none =>
    match m.quality with
    | some q => 0 < q
    | none => true

/-- State of the `getLocations` loop: lat/lon bounds and the per-frame
location dict. -/
structure LocState where
  latMin : ℚ
  latMax : ℚ
  lonMin : ℚ
  lonMax : ℚ
  locations : List (Int × (ℚ × ℚ))
deriving DecidableEq

/-- The bounds update of the `getLocations` loop
(CamtrawlMetadata.py:255-263), with the source's if/elif shape on each
coordinate. -/
def locBounds (st : LocState) (la lo : ℚ) : LocState :=
  let st2 :=
    if la > st.latMax then { st with latMax := la }
    else if la < st.latMin then { st with latMin := la }
    else st
  if lo > st2.lonMax then { st2 with lonMax := lo }
  else if lo < st2.lonMin then { st2 with lonMin := lo }
  else st2

/-- One iteration of the `getLocations` frame loop, continued: skip a frame
that already has a location, otherwise parse, run the gated assignment, and
update the bounds when a fix was just assigned. -/
def locStep (parse : String → Option Nmea) (st : LocState) (row : Int × String) :
    LocState :=
  if dictHasKey st.locations row.1 then st
  else
    match parse row.2 with
    | none => st
    | some m =>
      let st1 :=
        if nmeaFires m then
          { st with locations := dictInsert st.locations row.1 (m.lat, m.lon) }
        else st
      match dictLookup st1.locations row.1 with
      | none => st1
      | some (la, lo) => locBounds st1 la lo

/-- Case-insensitive sensor-id resolution (CamtrawlMetadata.py:225-229):
when the id is not a key, a lower-case match is tried and then an
upper-case match; the two `if`s are sequential, so an upper-case match
wins over a lower-case one. -/
def resolveSensorID (sensorData : SensorDict) (locationSensorID : String) : String :=
  if dictHasKey sensorData locationSensorID then locationSensorID
  else
    let s1 := if dictHasKey sensorData (lowerStr locationSensorID) then
        lowerStr locationSensorID else locationSensorID
    if dictHasKey sensorData (upperStr locationSensorID) then
      upperStr locationSensorID else s1

/-- Model of `CamTrawlMetadata.getLocations` (CamtrawlMetadata.py:200-270), as a
function of the loaded synchronous sensor data and of the external
`pynmea2.parse` (a parse failure, and a parse whose message lacks the
latitude/longitude attributes, are both `none`).  Returns the four
deployment-bounds corners and the per-frame locations. -/
def getLocationsF (parse : String → Option Nmea) (sensorData : SensorDict)
    (locationSensorID : String) : ((ℚ × ℚ) × (ℚ × ℚ) × (ℚ × ℚ) × (ℚ × ℚ)) ×
    List (Int × (ℚ × ℚ)) :=
  let sid := resolveSensorID sensorData locationSensorID
  let final : LocState :=
    match dictLookup sensorData sid with
    | none => ⟨999999, -999999, 999999, -999999, []⟩
    | some headers =>
      headers.foldl (fun st h => h.2.foldl (locStep parse) st)
        ⟨999999, -999999, 999999, -999999, []⟩
  (((final.latMin, final.lonMin), (final.latMin, final.lonMax),
    (final.latMax, final.lonMax), (final.latMax, final.lonMin)),
   final.locations)

/-- All synchronous rows `getLocations` traverses for a resolved sensor id,
in traversal order (headers in dict order, then frames in dict order). -/
def locRows (sensorData : SensorDict) (sid : String) : List (Int × String) :=
  match dictLookup sensorData sid with
  | none => []
  | some headers => (headers.map Prod.snd).flatten

/-- Specification-side reading of the at-most-one-write policy: the
location of frame `f` is the lat/lon of the first traversed datagram for
`f` whose payload parses and passes the validity gate, and `none` when no
such datagram exists. -/
def firstFiringFix (parse : String → Option Nmea) (rows : List (Int × String))
    (f : Int) : Option (ℚ × ℚ) :=
  match rows with
  | [] => none
  | r :: rest =>
    if r.1 = f then
      match parse r.2 with
      | some m =>
        if nmeaFires m then some (m.lat, m.lon) else firstFiringFix parse rest f
      | none => firstFiringFix parse rest f
    else firstFiringFix parse rest f

/-- A row of the `images` table (the columns `query` reads; `still` is the
`still_image` column, `discarded` is tri-state). -/
structure ImageRow where
  number : Int
  camera : String
  time : ℚ
  name : String
  discarded : Option Int
  still : Int
deriving DecidableEq

/-- A row of the `dropped` table. -/
structure DroppedRow where
  number : Int
  camera : String
  time : ℚ
deriving DecidableEq

/-- A row of the `sensor_data` table. -/
structure SensorRow where
  number : Int
  sensorId : String
  header : String
  data : String
deriving DecidableEq

/-- A row of the `marks` table. -/
structure MarkRow where
  frame : Int
  desc : String
deriving DecidableEq

/-- A row of the `cameras` table. -/
structure CameraRow where
  name : String
  mac : String
  model : String
  label : String
  rotation : String
deriving DecidableEq

/-- The backing SQLite store (the tables the verified claims touch). -/
structure DB where
  cameras : List CameraRow
  images : List ImageRow
  dropped : List DroppedRow
  sensors : List SensorRow
  marksT : List MarkRow
  deploymentData : List (String × String)
deriving DecidableEq

/-- Per-camera metadata held in `self.cameras`. -/
structure CamInfo where
  mac : String
  model : String
  label : String
  orientation : Int
deriving DecidableEq

/-- An entry of `self.imageData[camera]`: `[recordedTime, utcTime, name]`. -/
structure ImgEntry where
  recorded : ℚ
  utc : ℚ
  name : String
deriving DecidableEq

/-- The in-memory snapshot of a `CamTrawlMetadata` object (the fields the
verified claims touch; `asyncData` is omitted, see the header comment). -/
structure Meta where
  dbConnectionName : Option String
  startImage : Int
  endImage : Int
  startTime : Option ℚ
  endTime : Option ℚ
  cameras : List (String × CamInfo)
  imageData : List (String × List (Int × ImgEntry))
  marks : List (Int × String)
  sensorData : SensorDict
  sensorTime : List (Int × ℚ)
  sensorUtcTime : List (Int × ℚ)
  nDroppedImages : Int
  droppedData : List (String × List (Int × ℚ))
  deploymentData : List (String × String)
  imageNumbers : List Int
deriving DecidableEq

/-- Model of `CamTrawlMetadata.clear` (CamtrawlMetadata.py:42-56): resets every
snapshot field; the connection name is not touched. -/
def clearMeta (st : Meta) : Meta :=
  { st with
      startImage := -1, endImage := 0, startTime := none, endTime := none,
      cameras := [], imageData := [], marks := [], sensorData := [],
      sensorTime := [], sensorUtcTime := [], nDroppedImages := 0,
      droppedData := [], deploymentData := [], imageNumbers := [] }

/-- Orientation decoding of the `rotation` column (CamtrawlMetadata.py:714-729). -/
def orientationOf (rot : String) : Int :=
  let r := lowerStr rot
  if r = "none" then 0
  else if r = "cw90" then 90
  else if r = "cw180" then 180
  else if r = "cw270" then 270
  else if r = "fliplr" then -1
  else if r = "flipud" then -2
  else 0

/-- The camera dict built by `query` (CamtrawlMetadata.py:709-741): rows of
the `cameras` table keyed by name; when that table has no rows, a fallback
over `SELECT DISTINCT camera FROM images` with placeholder metadata. -/
def buildCameras (db : DB) : List (String × CamInfo) :=
  if db.cameras.isEmpty then
    db.images.foldl (fun d r => dictInsert d r.camera ⟨"", "", "", 0⟩) []
  else
    db.cameras.foldl
      (fun d r => dictInsert d r.name ⟨r.mac, r.model, r.label, orientationOf r.rotation⟩) []

/-- Camera iteration order of `query`'s image-loading loop: the keys of
`self.cameras` in insertion order. -/
def camerasList (db : DB) : List String :=
  (buildCameras db).map Prod.fst

/-- The time-window test of the `timeClause`
(`time between datetime(start) and datetime(end)`, inclusive); the
missing-argument sentinels "1900-01-01..." / "2999-01-01..." are modelled
as absent bounds. -/
def inWindow (startT endT : Option ℚ) (t : ℚ) : Bool :=
  (match startT with | some a => decide (a ≤ t) | none => true) &&
  (match endT with | some b => decide (t ≤ b) | none => true)

/-- Row filter of the per-camera image query (CamtrawlMetadata.py:774-781):
`camera=cam AND still_image=1 AND [discard clause unless returnDiscards]
AND timeClause`. -/
def imgKept (cam : String) (startT endT : Option ℚ) (returnDiscards : Bool)
    (r : ImageRow) : Bool :=
  r.camera = cam && r.still = 1 &&
  (returnDiscards || (r.discarded = none || r.discarded = some 0)) &&
  inWindow startT endT r.time

/-- The rows the per-camera image query returns: filtered and ordered by
ascending frame number (`ORDER BY number ASC`). -/
def filteredRows (db : DB) (cam : String) (startT endT : Option ℚ)
    (returnDiscards : Bool) : List ImageRow :=
  List.insertionSort (fun a b => a.number ≤ b.number)
    (db.images.filter (imgKept cam startT endT returnDiscards))

/-- The filtered frame numbers of one camera, ascending. -/
def filteredNumbers (db : DB) (cam : String) (startT endT : Option ℚ)
    (returnDiscards : Bool) : List Int :=
  (filteredRows db cam startT endT returnDiscards).map (fun r => r.number)

/-- Accumulator of the image-loading loop: `startImage`, `endImage`,
`imageData`. -/
structure LoadAcc where
  startImage : Int
  endImage : Int
  imageData : List (String × List (Int × ImgEntry))
deriving DecidableEq

/-- One image row of the loading loop (CamtrawlMetadata.py:784-796): latch
`startImage` while it is -1, always overwrite `endImage`, record the row
in the camera's dict. -/
def loadRow (timeOffset : ℚ) (p : Int × Int × List (Int × ImgEntry)) (r : ImageRow) :
    Int × Int × List (Int × ImgEntry) :=
  (if p.1 = -1 then r.number else p.1,
   r.number,
   dictInsert p.2.2 r.number ⟨r.time, r.time + timeOffset, r.name⟩)

/-- One camera of the image-loading loop (CamtrawlMetadata.py:771-796):
`self.imageData[camera] = {}` then the row loop. -/
def loadCam (db : DB) (startT endT : Option ℚ) (returnDiscards : Bool)
    (timeOffset : ℚ) (acc : LoadAcc) (cam : String) : LoadAcc :=
  let inner := (filteredRows db cam startT endT returnDiscards).foldl
    (loadRow timeOffset) (acc.startImage, acc.endImage, [])
  ⟨inner.1, inner.2.1, acc.imageData ++ [(cam, inner.2.2)]⟩

/-- The dropped-image dict built by `query` (CamtrawlMetadata.py:756-768):
a skeleton keyed by `SELECT DISTINCT camera FROM dropped`, then one
UTC-adjusted entry per row. -/
def buildDropped (db : DB) (timeOffset : ℚ) : List (String × List (Int × ℚ)) :=
  let skeleton := (dedupFirst (db.dropped.map (fun r => r.camera))).map
    (fun c => (c, ([] : List (Int × ℚ))))
  db.dropped.foldl
    (fun d r =>
      match dictLookup d r.camera with
      | none => d
      | some inner => dictInsert d r.camera (dictInsert inner r.number (r.time + timeOffset)))
    skeleton

/-- Value of `self.nDroppedImages` as `query` computes it (CamtrawlMetadata.py:703-706):
`SELECT DISTINCT number FROM dropped`, then `query.first()` and
`query.value(0)` — the FIRST distinct number, or 0 when there are no rows. -/
def droppedCountF (db : DB) : Int :=
  match dedupFirst (db.dropped.map (fun r => r.number)) with
  | [] => 0
  | n :: _ => n

/-- One joined sensor row being stored (CamtrawlMetadata.py:828-847):
`self.sensorData[id][header][number] = data` plus the two per-frame time
maps; a `KeyError` on the nested dict (impossible for ids/headers taken
from the skeleton of the same table) would skip the row. -/
def storeSensorRow (timeOffset : ℚ)
    (acc : SensorDict × List (Int × ℚ) × List (Int × ℚ))
    (row : Int × ℚ × String × String × String) :
    SensorDict × List (Int × ℚ) × List (Int × ℚ) :=
  match dictLookup acc.1 row.2.2.1 with
  | none => acc
  | some headers =>
    match dictLookup headers row.2.2.2.1 with
    | none => acc
    | some cells =>
      (dictInsert acc.1 row.2.2.1
         (dictInsert headers row.2.2.2.1 (dictInsert cells row.1 row.2.2.2.2)),
       dictInsert acc.2.1 row.1 row.2.1,
       dictInsert acc.2.2 row.1 (row.2.1 + timeOffset))

/-- The synchronous-sensor load of `query` (CamtrawlMetadata.py:810-847):
a skeleton of empty dicts from the distinct sensor ids and their distinct
headers, filled from the `DISTINCT` inner join of `images` and
`sensor_data` on frame number restricted to `[startImage, endImage]`. -/
def buildSensor (db : DB) (startImage endImage : Int) (timeOffset : ℚ) :
    SensorDict × List (Int × ℚ) × List (Int × ℚ) :=
  let skeleton : SensorDict :=
    (dedupFirst (db.sensors.map (fun r => r.sensorId))).map
      (fun sid =>
        (sid, (dedupFirst ((db.sensors.filter (fun r => r.sensorId = sid)).map
          (fun r => r.header))).map (fun h => (h, ([] : List (Int × String))))))
  let joined : List (Int × ℚ × String × String × String) :=
    dedupFirst ((db.images.map (fun im =>
      (db.sensors.filter (fun sd => im.number = sd.number)).map
        (fun sd => (im.number, im.time, sd.sensorId, sd.header, sd.data)))).flatten.filter
      (fun t => startImage ≤ t.1 && t.1 ≤ endImage))
  joined.foldl (storeSensorRow timeOffset) (skeleton, [], [])

/-- Minimum of a Python dict's keys (`min(d.keys())`); `none` models the
`ValueError` on an empty dict. -/
def minKey? {α : Type} (l : List (Int × α)) : Option Int :=
  match l.map Prod.fst with
  | [] => none
  | k :: ks => some (ks.foldl min k)

/-- Maximum of a Python dict's keys (`max(d.keys())`); `none` models the
`ValueError` on an empty dict. -/
def maxKey? {α : Type} (l : List (Int × α)) : Option Int :=
  match l.map Prod.fst with
  | [] => none
  | k :: ks => some (ks.foldl max k)

/-- One camera of the `getTimespan` loop (CamtrawlMetadata.py:133-149). -/
def timespanStep (st : Meta) (ts : Option ℚ × Option ℚ) (cam : String) :
    Option (Option ℚ × Option ℚ) := do
  let dict ← dictLookup st.imageData cam
  let startFrame ← minKey? dict
  let endFrame ← maxKey? dict
  let sEntry ← dictLookup dict startFrame
  let eEntry ← dictLookup dict endFrame
  let t0 := match ts.1 with
    | none => some sEntry.recorded
    | some v => if sEntry.recorded < v then some sEntry.recorded else some v
  let t1 := match ts.2 with
    | none => some eEntry.recorded
    | some v => if eEntry.recorded > v then some eEntry.recorded else some v
  pure (t0, t1)

/-- Model of `CamTrawlMetadata.getTimespan` (CamtrawlMetadata.py:116-151) on a
snapshot that has already been populated by `query` (the lazy `self.query()`
guard on line 130 never fires inside `query` itself, where `imageData` has
one key per known camera).  `none` models the `ValueError` raised by
`min()`/`max()` over an empty per-camera key set. -/
def getTimespanF (st : Meta) : Option (Option ℚ × Option ℚ) :=
  (st.cameras.map Prod.fst).foldlM (timespanStep st) (none, none)

/-- Offset `hours_offset_to_utc` as parsed by `query` (CamtrawlMetadata.py:750-753):
`float(...)` of the deployment parameter, 0 on any failure. -/
def timeOffsetOf (deploymentData : List (String × String)) : ℚ :=
  match dictLookup deploymentData "hours_offset_to_utc" with
  | none => 0
  | some v => (pyFloat? v.data).getD 0

/-- The in-memory snapshot `query` assembles once the image-loading loop
has run, given the last iterated camera (CamtrawlMetadata.py:680-893). -/
def querySnapshot (st : Meta) (db : DB) (startT endT : Option ℚ)
    (returnDiscards : Bool) (lastCam : String) : Meta :=
    let st0 := clearMeta st
    let nDropped := droppedCountF db
    let camDict := buildCameras db
    let cams := camerasList db
    let depData := db.deploymentData.foldl (fun d p => dictInsert d p.1 p.2) []
    let timeOffset := timeOffsetOf depData
    let droppedD := buildDropped db timeOffset
    let load := cams.foldl (loadCam db startT endT returnDiscards timeOffset)
      ⟨st0.startImage, st0.endImage, st0.imageData⟩
    -- CamtrawlMetadata.py:799-804: `start_set = set(self.imageData[camera].keys())`
    -- with `camera` still bound to the last iterated camera; the loop body
    -- `start_set.intersection(self.imageData[otherCam].keys())` computes an
    -- intersection and discards it, so the set never changes.
    let startSet := dedupFirst
      (((dictLookup load.imageData lastCam).getD []).map Prod.fst)
    let imgNums := List.insertionSort (fun a b => a ≤ b) startSet
    let sens := buildSensor db load.startImage load.endImage timeOffset
    let marks := db.marksT.foldl
      (fun m r =>
        if load.startImage ≤ r.frame ∧ r.frame ≤ load.endImage then
          dictInsert m r.frame r.desc
        else m) []
    { st0 with
        nDroppedImages := nDropped, cameras := camDict,
        deploymentData := depData, droppedData := droppedD,
        startImage := load.startImage, endImage := load.endImage,
        imageData := load.imageData, imageNumbers := imgNums,
        sensorData := sens.1, sensorTime := sens.2.1,
        sensorUtcTime := sens.2.2, marks := marks }

/-- The body of `CamTrawlMetadata.query` past the open-connection guard
(CamtrawlMetadata.py:680-898): when the camera iteration left no binding
for the loop variable the index build raises (`none`); otherwise the
snapshot is assembled and the closing `getTimespan` runs, whose
`ValueError` on an empty per-camera image set also yields `none`. -/
def queryOpen (st : Meta) (db : DB) (startT endT : Option ℚ) (returnDiscards : Bool) :
    Option Meta :=
  match (camerasList db).getLast? with
  | none => none
  | some lastCam =>
    let stQ := querySnapshot st db startT endT returnDiscards lastCam
    match getTimespanF stQ with
    | none => none
    | some (t0, t1) => some { stQ with startTime := t0, endTime := t1 }

/-- Model of `CamTrawlMetadata.query` (CamtrawlMetadata.py:638-898): the guard of
lines 677-678 returns at once when no store is open, otherwise the body
runs (`queryOpen`). -/
def queryF (st : Meta) (db : DB) (startT endT : Option ℚ) (returnDiscards : Bool) :
    Option Meta :=
  match st.dbConnectionName with
  | none => some st
  | some _ => queryOpen st db startT endT returnDiscards

/-- Model of `CamTrawlMetadata.removeMark` (CamtrawlMetadata.py:965-974): with a live
connection, and only when the frame is a key of the in-memory `marks`
snapshot, delete every `marks` row with that frame number and drop the
snapshot entry; otherwise both the store and the snapshot are untouched. -/
def removeMarkF (db : DB) (st : Meta) (frame : Int) : DB × Meta :=
  match st.dbConnectionName with
  | none => (db, st)
  | some _ =>
    if dictHasKey st.marks frame then
      ({ db with marksT := db.marksT.filter (fun r => r.frame ≠ frame) },
       { st with marks := dictErase st.marks frame })
    else (db, st)

/-- Model of `CamTrawlMetadata.createMark` (CamtrawlMetadata.py:951-962): with a live
connection, first `removeMark`, then insert the new row and update the
snapshot. -/
def createMarkF (db : DB) (st : Meta) (frame : Int) (descr : String) : DB × Meta :=
  match st.dbConnectionName with
  | none => (db, st)
  | some _ =>
    let p := removeMarkF db st frame
    ({ p.1 with marksT := p.1.marksT ++ [⟨frame, descr⟩] },
     { p.2 with marks := dictInsert p.2.marks frame descr })

/-- A database schema: table name → declared column names (order of
declaration).  Only the shape matters for the migration claims. -/
structure Schema where
  tables : List (String × List String)
deriving DecidableEq

/-- Test `'name' in db.tables()`. -/
def hasTable (s : Schema) (t : String) : Bool :=
  s.tables.any (fun p => p.1 = t)

/-- The `PRAGMA table_info` column probe of `open`
(CamtrawlMetadata.py:335-340 and its seven sibling blocks): compares each
column name lower-cased against the target. -/
def hasColumn (s : Schema) (t : String) (c : String) : Bool :=
  s.tables.any (fun p => p.1 = t && p.2.any (fun col => lowerStr col = c))

/-- Statement `CREATE TABLE t (...)` guarded by `if not t in db.tables()`. -/
def createTable (s : Schema) (t : String) (cols : List String) : Schema :=
  if hasTable s t then s else ⟨s.tables ++ [(t, cols)]⟩

/-- Statement `ALTER TABLE t ADD COLUMN c` guarded by the `PRAGMA` probe.  When the
table does not exist the statement fails and `QSqlQuery.exec()` merely
returns false, which `open` ignores — the schema is unchanged. -/
def addColumn (s : Schema) (t : String) (c : String) : Schema :=
  if hasColumn s t c then s
  else if hasTable s t then
    ⟨s.tables.map (fun p => if p.1 = t then (p.1, p.2 ++ [c]) else p)⟩
  else s

/-- One migration step of `open`. -/
inductive Migration where
  | create (t : String) (cols : List String)
  | addCol (t : String) (c : String)
deriving DecidableEq

/-- Apply one migration. -/
def applyMigration (s : Schema) : Migration → Schema
  | .create t cols => createTable s t cols
  | .addCol t c => addColumn s t c

/-- The fixed, version-ordered migration list of `CamTrawlMetadata.open`
(CamtrawlMetadata.py:298-428): five guarded `CREATE TABLE`s, then eight
guarded `ALTER TABLE ... ADD COLUMN`s. -/
def openMigrations : List Migration :=
  [.create "videos" ["camera", "filename", "start_frame", "end_frame",
      "start_time", "end_time"],
   .create "deployment" ["deployment_name", "survey_name", "vessel_name",
      "camera_name", "survey_description", "deployment_time",
      "deployment_latitude", "deployment_longitude", "max_deployment_depth",
      "comments"],
   .create "marks" ["frame_number", "mark_description"],
   .create "deployment_data" ["deployment_parameter", "parameter_value"],
   .create "async_data" ["time", "sensor_id", "header", "data"],
   .addCol "cameras" "rotation",
   .addCol "cameras" "display_exposure",
   .addCol "images" "exposure_us",
   .addCol "images" "discarded",
   .addCol "images" "md5_checksum",
   .addCol "images" "gain",
   .addCol "images" "still_image",
   .addCol "images" "video_frame"]

/-- The schema-evolution part of `CamTrawlMetadata.open`
(CamtrawlMetadata.py:285-428), applied to an existing store's schema. -/
def ensureSchema (s : Schema) : Schema :=
  openMigrations.foldl applyMigration s

theorem dictLookup_dictInsert_self {κ α : Type} [DecidableEq κ]
    (l : List (κ × α)) (k : κ) (v : α) : dictLookup (dictInsert l k v) k = some v := by
  induction l with
  | nil => simp [dictInsert, dictLookup]
  | cons p rest ih =>
    by_cases h : p.1 = k
    · simp [dictInsert, dictLookup, h]
    · simp [dictInsert, dictLookup, h, ih]

theorem dictLookup_dictInsert_ne {κ α : Type} [DecidableEq κ]
    (l : List (κ × α)) (k k' : κ) (v : α) (h : k' ≠ k) :
    dictLookup (dictInsert l k v) k' = dictLookup l k' := by
  induction l with
  | nil => simp [dictInsert, dictLookup, Ne.symm h]
  | cons p rest ih =>
    by_cases hp : p.1 = k
    · subst hp
      simp [dictInsert, dictLookup, Ne.symm h]
    · simp only [dictInsert, hp, if_false, dictLookup]
      by_cases hp' : p.1 = k'
      · simp [hp']
      · simp [hp', ih]

theorem dictHasKey_dictInsert_self {κ α : Type} [DecidableEq κ]
    (l : List (κ × α)) (k : κ) (v : α) : dictHasKey (dictInsert l k v) k = true := by
  induction l with
  | nil => simp [dictInsert, dictHasKey]
  | cons p rest ih =>
    by_cases h : p.1 = k
    · simp [dictInsert, dictHasKey, h]
    · simp only [dictInsert, h, if_false, dictHasKey, List.any_cons]
      simp only [dictHasKey] at ih
      simp [ih]

theorem dictHasKey_dictInsert_ne {κ α : Type} [DecidableEq κ]
    (l : List (κ × α)) (k k' : κ) (v : α) (h : k' ≠ k) :
    dictHasKey (dictInsert l k v) k' = dictHasKey l k' := by
  induction l with
  | nil => simp [dictInsert, dictHasKey, Ne.symm h]
  | cons p rest ih =>
    by_cases hp : p.1 = k
    · subst hp
      simp [dictInsert, dictHasKey, Ne.symm h]
    · simp only [dictInsert, hp, if_false, dictHasKey, List.any_cons] at ih ⊢
      simp [ih]

theorem dictInsert_of_not_hasKey {κ α : Type} [DecidableEq κ]
    (l : List (κ × α)) (k : κ) (v : α) (h : dictHasKey l k = false) :
    dictInsert l k v = l ++ [(k, v)] := by
  induction l with
  | nil => simp [dictInsert]
  | cons p rest ih =>
    simp only [dictHasKey, List.any_cons, Bool.or_eq_false_iff, decide_eq_false_iff_not] at h
    simp only [dictInsert, h.1, if_false, List.cons_append, List.cons.injEq, true_and]
    exact ih (by simp [dictHasKey, h.2])

/-- A snapshot with a live connection and otherwise pristine fields, as
after `__init__` plus a successful `open`. -/
def stOpen : Meta :=
  { dbConnectionName := some "CTMetadata", startImage := -1, endImage := 0,
    startTime := none, endTime := none, cameras := [], imageData := [],
    marks := [], sensorData := [], sensorTime := [], sensorUtcTime := [],
    nDroppedImages := 0, droppedData := [], deploymentData := [], imageNumbers := [] }

/-- A `cameras`-table row fixture. -/
def camRow (n : String) : CameraRow := ⟨n, "00-11", "mod", "lab", "none"⟩

/-- An `images`-table row fixture: a kept still image. -/
def imRow (n : Int) (c : String) (t : ℚ) : ImageRow := ⟨n, c, t, "img", none, 1⟩

/-- Two cameras whose filtered frame sets differ: camera A has frames 1 and
2, camera B has frames 2 and 3.  Their intersection is 2 alone. -/
def dbTwoCams : DB :=
  { cameras := [camRow "A", camRow "B"],
    images := [imRow 1 "A" 1, imRow 2 "A" 2, imRow 2 "B" 2, imRow 3 "B" 3],
    dropped := [], sensors := [], marksT := [], deploymentData := [] }

/-- A single-camera deployment with frames 1 and 2. -/
def dbOneCam : DB :=
  { cameras := [camRow "A"], images := [imRow 1 "A" 1, imRow 2 "A" 2],
    dropped := [], sensors := [], marksT := [], deploymentData := [] }

/-- One camera, one image, and a single dropped row whose frame number is 5. -/
def dbOneDrop : DB :=
  { cameras := [camRow "A"], images := [imRow 1 "A" 1],
    dropped := [⟨5, "A", 2⟩], sensors := [], marksT := [], deploymentData := [] }

/-- Specification-side common-image-number index (spec section 3 and the
testable property of section 8): the set intersection of every known
camera's filtered frame numbers, sorted ascending. -/
def specCommonImageNumbers (db : DB) (startT endT : Option ℚ) (returnDiscards : Bool) :
    List Int :=
  match camerasList db with
  | [] => []
  | c :: rest =>
    List.insertionSort (fun a b => a ≤ b)
      ((dedupFirst (filteredNumbers db c startT endT returnDiscards)).filter
        (fun n => rest.all
          (fun c2 => (filteredNumbers db c2 startT endT returnDiscards).any
            (fun m => m = n))))

/-- Specification-side count of distinct dropped frame numbers. -/
def distinctDroppedCount (db : DB) : Nat :=
  (dedupFirst (db.dropped.map (fun r => r.number))).length

/-- C1: the computed `imageNumbers` index is NOT the intersection of the
cameras' filtered frame sets: on `dbTwoCams` the code yields the last
camera's sorted frame set `[2, 3]` while the intersection is `[2]` (the
`set.intersection` result at CamtrawlMetadata.py:803 is discarded).  On a
single-camera deployment the two agree, as the claim's second clause says. -/
theorem imageNumbers_last_camera_not_intersection :
    (queryF stOpen dbTwoCams none none false).map (fun s => s.imageNumbers) =
      some [2, 3] ∧
    specCommonImageNumbers dbTwoCams none none false = [2] ∧
    ([2, 3] : List Int) ≠ [2] ∧
    (queryF stOpen dbOneCam none none false).map (fun s => s.imageNumbers) =
      some [1, 2] ∧
    specCommonImageNumbers dbOneCam none none false = [1, 2] := by
  refine ⟨by decide, by decide, by decide, by decide, by decide⟩

/-- C3: `nDroppedImages` is NOT the count of distinct dropped frame
numbers: with a single dropped row whose number is 5 the code stores 5,
while the count is 1 (`query.value(0)` of `SELECT DISTINCT number` at
CamtrawlMetadata.py:706 is the first number, not a count).  It does equal 0
when the dropped table is empty. -/
theorem nDroppedImages_first_number_not_count :
    (queryF stOpen dbOneDrop none none false).map (fun s => s.nDroppedImages) =
      some 5 ∧
    distinctDroppedCount dbOneDrop = 1 ∧
    ((5 : Int) ≠ (1 : Int)) ∧
    (queryF stOpen dbOneCam none none false).map (fun s => s.nDroppedImages) =
      some 0 := by
  refine ⟨by decide, by decide, by decide, by decide⟩

/-- C5: with no live connection name, `query` returns at once and the
snapshot is untouched (CamtrawlMetadata.py:677-678 precede the `clear()`),
a silent no-op rather than an error. -/
theorem query_no_connection_noop (st : Meta) (db : DB) (startT endT : Option ℚ)
    (returnDiscards : Bool) (h : st.dbConnectionName = none) :
    queryF st db startT endT returnDiscards = some st := by
  simp [queryF, h]

/-- Closed instance of `query_no_connection_noop` at a pristine snapshot
over `dbTwoCams`. -/
theorem query_no_connection_noop_witness :
    ({ stOpen with dbConnectionName := none } : Meta).dbConnectionName = none ∧
    queryF { stOpen with dbConnectionName := none } dbTwoCams none none false =
      some { stOpen with dbConnectionName := none } :=
  ⟨rfl, query_no_connection_noop _ dbTwoCams none none false rfl⟩

/-- C10: `removeMark` touches neither the store nor the snapshot when the
frame is not a key of the in-memory marks snapshot, even if the store
holds a mark row for that frame (the guard at CamtrawlMetadata.py:972 tests
the snapshot, not the store). -/
theorem removeMark_requires_snapshot_key (db : DB) (st : Meta) (c : String) (f : Int)
    (hconn : st.dbConnectionName = some c) (h : dictHasKey st.marks f = false) :
    removeMarkF db st f = (db, st) := by
  simp [removeMarkF, hconn, h]

/-- Closed instance of `removeMark_requires_snapshot_key`: a store holding
a mark at frame 4 that the snapshot does not know keeps its row. -/
theorem removeMark_requires_snapshot_key_witness :
    stOpen.dbConnectionName = some "CTMetadata" ∧
    dictHasKey stOpen.marks 4 = false ∧
    removeMarkF { dbOneCam with marksT := [⟨4, "stale"⟩] } stOpen 4 =
      ({ dbOneCam with marksT := [⟨4, "stale"⟩] }, stOpen) :=
  ⟨rfl, rfl, removeMark_requires_snapshot_key _ stOpen "CTMetadata" 4 rfl rfl⟩

theorem dictHasKey_dictErase_self {κ α : Type} [DecidableEq κ]
    (l : List (κ × α)) (k : κ) : dictHasKey (dictErase l k) k = false := by
  simp [dictHasKey, dictErase, List.any_eq_true]

theorem filter_key_dictErase {κ α : Type} [DecidableEq κ]
    (l : List (κ × α)) (k : κ) :
    (dictErase l k).filter (fun p => p.1 = k) = [] := by
  simp [dictErase, List.filter_filter]

theorem filter_frame_of_filter_ne (l : List MarkRow) (f : Int) :
    (l.filter (fun r => r.frame ≠ f)).filter (fun r => r.frame = f) = [] := by
  simp [List.filter_filter]

/-- C7: two consecutive `createMark` calls for the same frame leave exactly
one mark at that frame, carrying the second text, in the store's `marks`
table and in the in-memory snapshot alike (the second call's inner
`removeMark` deletes every row at the frame before the new insert). -/
theorem createMark_twice_single_mark (db : DB) (st : Meta) (c : String) (f : Int)
    (x y : String) (hconn : st.dbConnectionName = some c) :
    ((createMarkF (createMarkF db st f x).1 (createMarkF db st f x).2 f y).1).marksT.filter
      (fun r => r.frame = f) = [⟨f, y⟩] ∧
    ((createMarkF (createMarkF db st f x).1 (createMarkF db st f x).2 f y).2).marks.filter
      (fun p => p.1 = f) = [(f, y)] := by
  have h1 : (createMarkF db st f x).2.dbConnectionName = some c := by
    simp only [createMarkF, removeMarkF, hconn]
    by_cases h : dictHasKey st.marks f <;> simp [h, hconn]
  have h2 : dictHasKey (createMarkF db st f x).2.marks f = true := by
    simp only [createMarkF, removeMarkF, hconn]
    by_cases h : dictHasKey st.marks f <;>
      simp [h, hconn, dictHasKey_dictInsert_self]
  have h3 : dictHasKey (dictErase (createMarkF db st f x).2.marks f) f = false :=
    dictHasKey_dictErase_self _ f
  generalize hp : createMarkF db st f x = p at h1 h2 h3 ⊢
  constructor
  · simp only [createMarkF, removeMarkF, h1, h2, if_true]
    simp [List.filter_append, filter_frame_of_filter_ne]
  · simp only [createMarkF, removeMarkF, h1, h2, if_true]
    simp only [dictInsert_of_not_hasKey _ _ _ h3, List.filter_append]
    simp [filter_key_dictErase]

/-- Closed instance of `createMark_twice_single_mark` at frame 4 over a
store already holding a stale row at that frame. -/
theorem createMark_twice_single_mark_witness :
    stOpen.dbConnectionName = some "CTMetadata" ∧
    (let p := createMarkF { dbOneCam with marksT := [⟨4, "stale"⟩] } stOpen 4 "x"
     let q := createMarkF p.1 p.2 4 "y"
     q.1.marksT.filter (fun r => r.frame = 4) = [⟨4, "y"⟩] ∧
       q.2.marks.filter (fun p2 => p2.1 = 4) = [(4, "y")]) :=
  ⟨rfl, createMark_twice_single_mark _ stOpen "CTMetadata" 4 "x" "y" rfl⟩

theorem hasTable_createTable_self (s : Schema) (t : String) (cols : List String) :
    hasTable (createTable s t cols) t = true := by
  cases hht : hasTable s t with
  | true => simp [createTable, hht]
  | false =>
    simp only [createTable, hht, Bool.false_eq_true, if_false]
    simp [hasTable, List.any_append]

theorem hasTable_createTable_other (s : Schema) (t t2 : String) (cols : List String)
    (h : t2 ≠ t) : hasTable (createTable s t cols) t2 = hasTable s t2 := by
  cases hs : hasTable s t with
  | true => simp [createTable, hs]
  | false =>
    simp only [createTable, hs, Bool.false_eq_true, if_false]
    simp [hasTable, List.any_append, Ne.symm h]

theorem hasTable_map_addCol (s : Schema) (t t2 c : String) :
    hasTable ⟨s.tables.map (fun p => if p.1 = t then (p.1, p.2 ++ [c]) else p)⟩ t2 =
      hasTable s t2 := by
  simp only [hasTable, List.any_map]
  congr 1
  funext p
  by_cases hp : p.1 = t
  · simp [Function.comp, hp]
  · simp [Function.comp, hp]

theorem hasTable_addColumn (s : Schema) (t t2 : String) (c : String) :
    hasTable (addColumn s t c) t2 = hasTable s t2 := by
  cases h1 : hasColumn s t c with
  | true => simp [addColumn, h1]
  | false =>
    cases h2 : hasTable s t with
    | true =>
      simp only [addColumn, h1, Bool.false_eq_true, if_false, h2, if_true]
      exact hasTable_map_addCol s t t2 c
    | false => simp [addColumn, h1, h2]

theorem hasTable_applyMigration_mono (s : Schema) (m : Migration) (t : String)
    (h : hasTable s t = true) : hasTable (applyMigration s m) t = true := by
  cases m with
  | create t2 cols =>
    cases hs : hasTable s t2 with
    | true => simpa [applyMigration, createTable, hs] using h
    | false =>
      simp only [applyMigration, createTable, hs, Bool.false_eq_true, if_false]
      simp only [hasTable] at h
      simp [hasTable, List.any_append, h]
  | addCol t2 c => simpa [applyMigration, hasTable_addColumn] using h

theorem hasTable_foldl_mono (l : List Migration) (s : Schema) (t : String)
    (h : hasTable s t = true) : hasTable (l.foldl applyMigration s) t = true := by
  induction l generalizing s with
  | nil => simpa using h
  | cons m rest ih => exact ih _ (hasTable_applyMigration_mono s m t h)

theorem hasTable_foldl_of_create_mem (l : List Migration) (s : Schema) (t : String)
    (cols : List String) (h : Migration.create t cols ∈ l) :
    hasTable (l.foldl applyMigration s) t = true := by
  induction l generalizing s with
  | nil => cases h
  | cons m rest ih =>
    rcases List.mem_cons.mp h with hm | hm
    · subst hm
      exact hasTable_foldl_mono rest _ t (hasTable_createTable_self s t cols)
    · exact ih _ hm

/-- A column's migration is satisfied or vacuous: the column is present, or
its table does not exist (so the guarded `ALTER` is a silent no-op). -/
def colOK (s : Schema) (t c : String) : Prop :=
  hasColumn s t c = true ∨ hasTable s t = false

theorem addColumn_eq_self_of_colOK (s : Schema) (t c : String) (h : colOK s t c) :
    addColumn s t c = s := by
  rcases h with h | h
  · simp [addColumn, h]
  · cases h1 : hasColumn s t c with
    | true => simp [addColumn, h1]
    | false => simp [addColumn, h1, h]

theorem createTable_eq_self_of_hasTable (s : Schema) (t : String) (cols : List String)
    (h : hasTable s t = true) : createTable s t cols = s := by
  simp [createTable, h]

theorem hasColumn_addColumn_self (s : Schema) (t c : String) (hc : lowerStr c = c)
    (ht : hasTable s t = true) : hasColumn (addColumn s t c) t c = true := by
  cases h1 : hasColumn s t c with
  | true => simp [addColumn, h1]
  | false =>
    simp only [addColumn, h1, Bool.false_eq_true, if_false, ht, if_true]
    simp only [hasTable, List.any_eq_true, decide_eq_true_eq] at ht
    obtain ⟨p, hp, hpt⟩ := ht
    simp only [hasColumn, List.any_eq_true]
    refine ⟨(p.1, p.2 ++ [c]), List.mem_map.mpr ⟨p, hp, by simp [hpt]⟩, ?_⟩
    simp [hpt, List.any_append, hc]

theorem hasColumn_addColumn_mono (s : Schema) (t c t2 c2 : String)
    (h : hasColumn s t c = true) : hasColumn (addColumn s t2 c2) t c = true := by
  cases h1 : hasColumn s t2 c2 with
  | true => simpa [addColumn, h1] using h
  | false =>
    cases h2 : hasTable s t2 with
    | false => simpa [addColumn, h1, h2] using h
    | true =>
      simp only [addColumn, h1, Bool.false_eq_true, if_false, h2, if_true]
      simp only [hasColumn, List.any_eq_true] at h
      obtain ⟨p, hp, hpc⟩ := h
      simp only [hasColumn, List.any_eq_true]
      by_cases hpt : p.1 = t2
      · refine ⟨(p.1, p.2 ++ [c2]), List.mem_map.mpr ⟨p, hp, by simp [hpt]⟩, ?_⟩
        simp only [Bool.and_eq_true, decide_eq_true_eq, List.any_eq_true] at hpc ⊢
        refine ⟨hpc.1, ?_⟩
        obtain ⟨col, hcol, hlow⟩ := hpc.2
        exact ⟨col, List.mem_append_left _ hcol, hlow⟩
      · exact ⟨p, List.mem_map.mpr ⟨p, hp, by simp [hpt]⟩, hpc⟩

theorem hasColumn_createTable_mono (s : Schema) (t c t2 : String) (cols : List String)
    (h : hasColumn s t c = true) : hasColumn (createTable s t2 cols) t c = true := by
  cases hs : hasTable s t2 with
  | true => simpa [createTable, hs] using h
  | false =>
    simp only [createTable, hs, Bool.false_eq_true, if_false]
    simp only [hasColumn, List.any_append] at h ⊢
    simp [h]

theorem colOK_applyMigration (s : Schema) (m : Migration) (t c : String)
    (hne : ∀ t2 cols, m = Migration.create t2 cols → t2 ≠ t) (h : colOK s t c) :
    colOK (applyMigration s m) t c := by
  cases m with
  | create t2 cols =>
    rcases h with h | h
    · exact Or.inl (hasColumn_createTable_mono s t c t2 cols h)
    · refine Or.inr ?_
      rw [applyMigration, hasTable_createTable_other s t2 t cols (Ne.symm (hne t2 cols rfl))]
      exact h
  | addCol t2 c2 =>
    rcases h with h | h
    · exact Or.inl (hasColumn_addColumn_mono s t c t2 c2 h)
    · exact Or.inr (by rw [applyMigration, hasTable_addColumn]; exact h)

/-- The table a migration step would create, if it is a `create`. -/
def migCreates : Migration → Option String
  | .create t _ => some t
  | .addCol _ _ => none

theorem colOK_foldl_preserve (l : List Migration) (s : Schema) (t c : String)
    (hne : ∀ m ∈ l, migCreates m ≠ some t) (h : colOK s t c) :
    colOK (l.foldl applyMigration s) t c := by
  induction l generalizing s with
  | nil => simpa using h
  | cons m rest ih =>
    refine ih _ (fun m2 hm2 => hne m2 (List.mem_cons_of_mem m hm2)) ?_
    refine colOK_applyMigration s m t c ?_ h
    rintro t2 cols rfl rfl
    exact hne _ (List.mem_cons_self _ rest) (by simp [migCreates])

theorem colOK_foldl_of_addCol_mem (l : List Migration) (s : Schema) (t c : String)
    (hc : lowerStr c = c) (hmem : Migration.addCol t c ∈ l)
    (hne : ∀ m ∈ l, migCreates m ≠ some t) :
    colOK (l.foldl applyMigration s) t c := by
  induction l generalizing s with
  | nil => cases hmem
  | cons m rest ih =>
    rcases List.mem_cons.mp hmem with hm | hm
    · subst hm
      refine colOK_foldl_preserve rest _ t c
        (fun m2 hm2 => hne m2 (List.mem_cons_of_mem _ hm2)) ?_
      cases ht : hasTable s t with
      | true => exact Or.inl (hasColumn_addColumn_self s t c hc ht)
      | false =>
        cases h1 : hasColumn s t c with
        | true => exact Or.inl (by simp [applyMigration, addColumn, h1])
        | false =>
          refine Or.inr ?_
          simp only [applyMigration, addColumn, h1, Bool.false_eq_true, if_false, ht]
    · exact ih _ hm (fun m2 hm2 => hne m2 (List.mem_cons_of_mem _ hm2))

theorem foldl_applyMigration_eq_self (l : List Migration) (x : Schema)
    (h : ∀ m ∈ l, applyMigration x m = x) : l.foldl applyMigration x = x := by
  induction l with
  | nil => rfl
  | cons m rest ih =>
    rw [List.foldl_cons, h m (List.mem_cons_self m rest)]
    exact ih (fun m2 hm2 => h m2 (List.mem_cons_of_mem m hm2))

/-- C8: the schema-evolution pass of `open` is idempotent: every migration
checks for its table or column first, so a second `ensureSchema` run on any
schema changes nothing. -/
theorem ensureSchema_idempotent (s : Schema) :
    ensureSchema (ensureSchema s) = ensureSchema s := by
  have hcreate : ∀ t cols, Migration.create t cols ∈ openMigrations →
      applyMigration (ensureSchema s) (Migration.create t cols) = ensureSchema s := by
    intro t cols hmem
    simp only [applyMigration]
    exact createTable_eq_self_of_hasTable _ _ _
      (hasTable_foldl_of_create_mem openMigrations s t cols hmem)
  have haddcol : ∀ t c, lowerStr c = c → Migration.addCol t c ∈ openMigrations →
      (∀ m ∈ openMigrations, migCreates m ≠ some t) →
      applyMigration (ensureSchema s) (Migration.addCol t c) = ensureSchema s := by
    intro t c hc hmem hne
    simp only [applyMigration]
    exact addColumn_eq_self_of_colOK _ _ _
      (colOK_foldl_of_addCol_mem openMigrations s t c hc hmem hne)
  refine foldl_applyMigration_eq_self openMigrations (ensureSchema s) ?_
  intro m hm
  have hm2 : m ∈ openMigrations := hm
  simp only [openMigrations, List.mem_cons, List.not_mem_nil, or_false] at hm2
  rcases hm2 with rfl | rfl | rfl | rfl | rfl | rfl | rfl | rfl | rfl | rfl | rfl | rfl | rfl
  · exact hcreate _ _ (by simp [openMigrations])
  · exact hcreate _ _ (by simp [openMigrations])
  · exact hcreate _ _ (by simp [openMigrations])
  · exact hcreate _ _ (by simp [openMigrations])
  · exact hcreate _ _ (by simp [openMigrations])
  · exact haddcol _ _ (by decide) (by simp [openMigrations]) (by decide)
  · exact haddcol _ _ (by decide) (by simp [openMigrations]) (by decide)
  · exact haddcol _ _ (by decide) (by simp [openMigrations]) (by decide)
  · exact haddcol _ _ (by decide) (by simp [openMigrations]) (by decide)
  · exact haddcol _ _ (by decide) (by simp [openMigrations]) (by decide)
  · exact haddcol _ _ (by decide) (by simp [openMigrations]) (by decide)
  · exact haddcol _ _ (by decide) (by simp [openMigrations]) (by decide)
  · exact haddcol _ _ (by decide) (by simp [openMigrations]) (by decide)

theorem dictInsert_ne_nil {κ α : Type} [DecidableEq κ] (l : List (κ × α)) (k : κ)
    (v : α) : dictInsert l k v ≠ [] := by
  cases l with
  | nil => simp [dictInsert]
  | cons p rest =>
    by_cases h : p.1 = k <;> simp [dictInsert, h]

theorem foldl_dictInsert_ne_nil {κ α β : Type} [DecidableEq κ]
    (rows : List β) (key : β → κ) (val : β → α) (d : List (κ × α)) (h : d ≠ []) :
    rows.foldl (fun d2 r => dictInsert d2 (key r) (val r)) d ≠ [] := by
  induction rows generalizing d with
  | nil => simpa using h
  | cons r rest ih => exact ih _ (dictInsert_ne_nil _ _ _)

theorem dictLookup_isSome_of_mem_keys {κ α : Type} [DecidableEq κ]
    (l : List (κ × α)) (k : κ) (h : k ∈ l.map Prod.fst) :
    ∃ v, dictLookup l k = some v := by
  induction l with
  | nil => cases h
  | cons p rest ih =>
    by_cases hp : p.1 = k
    · exact ⟨p.2, by simp [dictLookup, hp]⟩
    · have : k ∈ rest.map Prod.fst := by
        rcases List.mem_cons.mp h with h1 | h1
        · exact absurd h1.symm hp
        · exact h1
      obtain ⟨v, hv⟩ := ih this
      exact ⟨v, by simp [dictLookup, hp, hv]⟩

theorem dictLookup_map_pair {α : Type} (cams : List String) (g : String → α)
    (cam : String) (h : cam ∈ cams) :
    dictLookup (cams.map (fun c => (c, g c))) cam = some (g cam) := by
  induction cams with
  | nil => cases h
  | cons c rest ih =>
    by_cases hc : c = cam
    · subst hc
      simp [dictLookup]
    · have : cam ∈ rest := by
        rcases List.mem_cons.mp h with h1 | h1
        · exact absurd h1.symm hc
        · exact h1
      simp [dictLookup, hc, ih this]

theorem foldl_min_mem (ks : List Int) (k : Int) : ks.foldl min k ∈ k :: ks := by
  induction ks generalizing k with
  | nil => simp
  | cons a ks ih =>
    have h := ih (min k a)
    rcases min_choice k a with hm | hm <;> rw [hm] at h <;>
      simp only [List.foldl_cons, hm] <;>
      rcases List.mem_cons.mp h with h1 | h1 <;> simp [h1]

theorem foldl_max_mem (ks : List Int) (k : Int) : ks.foldl max k ∈ k :: ks := by
  induction ks generalizing k with
  | nil => simp
  | cons a ks ih =>
    have h := ih (max k a)
    rcases max_choice k a with hm | hm <;> rw [hm] at h <;>
      simp only [List.foldl_cons, hm] <;>
      rcases List.mem_cons.mp h with h1 | h1 <;> simp [h1]

theorem minKey?_isSome {α : Type} (l : List (Int × α)) (h : l ≠ []) :
    ∃ k, minKey? l = some k ∧ k ∈ l.map Prod.fst := by
  cases hl : l.map Prod.fst with
  | nil => exact absurd (List.map_eq_nil_iff.mp hl) h
  | cons k ks => exact ⟨ks.foldl min k, by simp [minKey?, hl], foldl_min_mem ks k⟩

theorem maxKey?_isSome {α : Type} (l : List (Int × α)) (h : l ≠ []) :
    ∃ k, maxKey? l = some k ∧ k ∈ l.map Prod.fst := by
  cases hl : l.map Prod.fst with
  | nil => exact absurd (List.map_eq_nil_iff.mp hl) h
  | cons k ks => exact ⟨ks.foldl max k, by simp [maxKey?, hl], foldl_max_mem ks k⟩

theorem timespanStep_isSome (st : Meta) (ts : Option ℚ × Option ℚ) (cam : String)
    (dcam : List (Int × ImgEntry)) (h : dictLookup st.imageData cam = some dcam)
    (hne : dcam ≠ []) : (timespanStep st ts cam).isSome = true := by
  obtain ⟨k1, hk1, hk1m⟩ := minKey?_isSome dcam hne
  obtain ⟨k2, hk2, hk2m⟩ := maxKey?_isSome dcam hne
  obtain ⟨v1, hv1⟩ := dictLookup_isSome_of_mem_keys dcam k1 hk1m
  obtain ⟨v2, hv2⟩ := dictLookup_isSome_of_mem_keys dcam k2 hk2m
  simp [timespanStep, h, hk1, hk2, hv1, hv2]

theorem timespanStep_none_of_empty (st : Meta) (ts : Option ℚ × Option ℚ)
    (cam : String) (h : (dictLookup st.imageData cam).getD [] = []) :
    timespanStep st ts cam = none := by
  cases hl : dictLookup st.imageData cam with
  | none => simp [timespanStep, hl]
  | some dcam =>
    have : dcam = [] := by simpa [hl] using h
    subst this
    simp [timespanStep, hl, minKey?]

theorem foldlM_timespanStep_isSome (st : Meta) (cams : List String)
    (ts : Option ℚ × Option ℚ) :
    (cams.foldlM (timespanStep st) ts).isSome = true ↔
      ∀ cam ∈ cams, (dictLookup st.imageData cam).getD [] ≠ [] := by
  induction cams generalizing ts with
  | nil => simp
  | cons cam rest ih =>
    rw [List.foldlM_cons]
    by_cases hc : (dictLookup st.imageData cam).getD [] = []
    · rw [timespanStep_none_of_empty st ts cam hc]
      simp only [Option.bind_eq_bind, Option.none_bind, Option.isSome_none,
        Bool.false_eq_true, false_iff]
      intro h
      exact absurd hc (h cam (List.mem_cons_self _ _))
    · cases hl : dictLookup st.imageData cam with
      | none => simp [hl] at hc
      | some dcam =>
        have hdne : dcam ≠ [] := by simpa [hl] using hc
        obtain ⟨ts2, hts2⟩ := Option.isSome_iff_exists.mp
          (timespanStep_isSome st ts cam dcam hl hdne)
        rw [hts2]
        simp only [Option.bind_eq_bind, Option.some_bind]
        rw [ih ts2]
        constructor
        · intro h cam2 hcam2
          rcases List.mem_cons.mp hcam2 with rfl | h2
          · exact hc
          · exact h cam2 h2
        · intro h cam2 hcam2
          exact h cam2 (List.mem_cons_of_mem _ hcam2)

/-- The per-camera image dict `query` builds (value part of the loading
loop). -/
def camDictF (db : DB) (startT endT : Option ℚ) (returnDiscards : Bool)
    (timeOffset : ℚ) (cam : String) : List (Int × ImgEntry) :=
  (filteredRows db cam startT endT returnDiscards).foldl
    (fun d r => dictInsert d r.number ⟨r.time, r.time + timeOffset, r.name⟩) []

theorem loadRow_foldl_dict (rows : List ImageRow) (toff : ℚ) (a b : Int)
    (d : List (Int × ImgEntry)) :
    (rows.foldl (loadRow toff) (a, b, d)).2.2 =
      rows.foldl (fun d2 r => dictInsert d2 r.number ⟨r.time, r.time + toff, r.name⟩) d := by
  induction rows generalizing a b d with
  | nil => rfl
  | cons r rest ih => simp only [List.foldl_cons, loadRow, ih]

theorem foldl_loadCam_imageData (db : DB) (startT endT : Option ℚ) (rd : Bool)
    (toff : ℚ) (cams : List String) (acc : LoadAcc) :
    (cams.foldl (loadCam db startT endT rd toff) acc).imageData =
      acc.imageData ++ cams.map (fun c => (c, camDictF db startT endT rd toff c)) := by
  induction cams generalizing acc with
  | nil => simp
  | cons c rest ih =>
    rw [List.foldl_cons, ih]
    simp only [loadCam, loadRow_foldl_dict, List.map_cons]
    rw [List.append_assoc]
    rfl

theorem camDictF_eq_nil_iff (db : DB) (startT endT : Option ℚ) (rd : Bool)
    (toff : ℚ) (cam : String) :
    camDictF db startT endT rd toff cam = [] ↔
      filteredRows db cam startT endT rd = [] := by
  constructor
  · intro h
    by_contra hne
    cases hrows : filteredRows db cam startT endT rd with
    | nil => exact hne hrows
    | cons r rest =>
      have : camDictF db startT endT rd toff cam ≠ [] := by
        rw [camDictF, hrows, List.foldl_cons]
        exact foldl_dictInsert_ne_nil rest (fun r2 => r2.number)
          (fun r2 => (⟨r2.time, r2.time + toff, r2.name⟩ : ImgEntry)) _
          (dictInsert_ne_nil _ _ _)
      exact this h
  · intro h
    rw [camDictF, h]
    rfl

theorem loadRow_foldl_start_ne (rows : List ImageRow) (toff : ℚ) (a b : Int)
    (d : List (Int × ImgEntry)) (ha : a ≠ -1) :
    (rows.foldl (loadRow toff) (a, b, d)).1 = a := by
  induction rows generalizing b d with
  | nil => rfl
  | cons r rest ih => simp only [List.foldl_cons, loadRow, ha, if_false]; exact ih _ _

theorem loadRow_foldl_start_cons (rows : List ImageRow) (toff : ℚ) (b : Int)
    (d : List (Int × ImgEntry)) (r : ImageRow) (hr : r.number ≠ -1) :
    ((r :: rows).foldl (loadRow toff) (-1, b, d)).1 = r.number := by
  simp only [List.foldl_cons, loadRow, if_pos rfl]
  exact loadRow_foldl_start_ne rows toff r.number r.number _ hr

theorem loadRow_foldl_end (rows : List ImageRow) (toff : ℚ) (a b : Int)
    (d : List (Int × ImgEntry)) :
    (rows.foldl (loadRow toff) (a, b, d)).2.1 =
      match rows.getLast? with
      | none => b
      | some r => r.number := by
  induction rows generalizing a b d with
  | nil => rfl
  | cons r rest ih =>
    rw [List.foldl_cons]
    cases rest with
    | nil => simp [loadRow]
    | cons r2 rest2 =>
      rw [loadRow, ih]
      rw [List.getLast?_cons_cons]
      cases hg : (r2 :: rest2).getLast? with
      | none =>
        rw [List.getLast?_eq_none_iff] at hg
        cases hg
      | some r3 => rfl

theorem mem_of_mem_filteredRows (db : DB) (cam : String) (startT endT : Option ℚ)
    (rd : Bool) (r : ImageRow) (h : r ∈ filteredRows db cam startT endT rd) :
    r ∈ db.images := by
  have hperm := List.perm_insertionSort (fun a b : ImageRow => a.number ≤ b.number)
    (db.images.filter (imgKept cam startT endT rd))
  exact List.mem_of_mem_filter (hperm.mem_iff.mp h)

theorem foldl_loadCam_start_stable (db : DB) (startT endT : Option ℚ) (rd : Bool)
    (toff : ℚ) (cams : List String) (acc : LoadAcc) (ha : acc.startImage ≠ -1) :
    (cams.foldl (loadCam db startT endT rd toff) acc).startImage = acc.startImage := by
  induction cams generalizing acc with
  | nil => rfl
  | cons c rest ih =>
    rw [List.foldl_cons]
    have hstep : (loadCam db startT endT rd toff acc c).startImage = acc.startImage := by
      simp only [loadCam]
      exact loadRow_foldl_start_ne _ toff _ _ _ ha
    rw [ih _ (by rw [hstep]; exact ha), hstep]

theorem foldl_loadCam_end_last (db : DB) (startT endT : Option ℚ) (rd : Bool)
    (toff : ℚ) (cams : List String) (lastCam : String) (acc : LoadAcc)
    (r : ImageRow)
    (hl : (filteredRows db lastCam startT endT rd).getLast? = some r) :
    ((cams ++ [lastCam]).foldl (loadCam db startT endT rd toff) acc).endImage =
      r.number := by
  rw [List.foldl_append, List.foldl_cons, List.foldl_nil]
  simp only [loadCam]
  rw [loadRow_foldl_end]
  rw [hl]

theorem getTimespanF_isSome_iff (db : DB) (startT endT : Option ℚ) (rd : Bool)
    (toff : ℚ) (st2 : Meta) (hcam : st2.cameras = buildCameras db)
    (hdata : st2.imageData =
      (camerasList db).map (fun c => (c, camDictF db startT endT rd toff c))) :
    (getTimespanF st2).isSome = true ↔
      ∀ cam ∈ camerasList db, filteredRows db cam startT endT rd ≠ [] := by
  rw [getTimespanF, hcam]
  rw [show (buildCameras db).map Prod.fst = camerasList db from rfl]
  rw [foldlM_timespanStep_isSome]
  constructor
  · intro h cam hcamm
    have := h cam hcamm
    rw [hdata, dictLookup_map_pair _ _ _ hcamm] at this
    simpa [camDictF_eq_nil_iff] using this
  · intro h cam hcamm
    rw [hdata, dictLookup_map_pair _ _ _ hcamm]
    simpa [camDictF_eq_nil_iff] using h cam hcamm

theorem querySnapshot_cameras (st : Meta) (db : DB) (startT endT : Option ℚ)
    (rd : Bool) (lastCam : String) :
    (querySnapshot st db startT endT rd lastCam).cameras = buildCameras db := by
  simp [querySnapshot]

theorem querySnapshot_imageData (st : Meta) (db : DB) (startT endT : Option ℚ)
    (rd : Bool) (lastCam : String) :
    (querySnapshot st db startT endT rd lastCam).imageData =
      (camerasList db).map (fun c =>
        (c, camDictF db startT endT rd
          (timeOffsetOf (db.deploymentData.foldl (fun d p => dictInsert d p.1 p.2) [])) c)) := by
  simp only [querySnapshot, foldl_loadCam_imageData]
  simp [clearMeta]

theorem querySnapshot_startImage (st : Meta) (db : DB) (startT endT : Option ℚ)
    (rd : Bool) (lastCam : String) :
    (querySnapshot st db startT endT rd lastCam).startImage =
      ((camerasList db).foldl
        (loadCam db startT endT rd
          (timeOffsetOf (db.deploymentData.foldl (fun d p => dictInsert d p.1 p.2) [])))
        ⟨-1, 0, []⟩).startImage := by
  simp [querySnapshot, clearMeta]

theorem querySnapshot_endImage (st : Meta) (db : DB) (startT endT : Option ℚ)
    (rd : Bool) (lastCam : String) :
    (querySnapshot st db startT endT rd lastCam).endImage =
      ((camerasList db).foldl
        (loadCam db startT endT rd
          (timeOffsetOf (db.deploymentData.foldl (fun d p => dictInsert d p.1 p.2) [])))
        ⟨-1, 0, []⟩).endImage := by
  simp [querySnapshot, clearMeta]

theorem queryOpen_isSome_iff (st : Meta) (db : DB) (startT endT : Option ℚ)
    (rd : Bool) :
    (queryOpen st db startT endT rd).isSome = true ↔
      (camerasList db ≠ [] ∧
        ∀ cam ∈ camerasList db, filteredRows db cam startT endT rd ≠ []) := by
  rw [queryOpen]
  cases hlast : (camerasList db).getLast? with
  | none =>
    rw [List.getLast?_eq_none_iff] at hlast
    simp [hlast]
  | some lastCam =>
    have hcams : camerasList db ≠ [] := by
      intro h
      rw [h] at hlast
      cases hlast
    have hiff := getTimespanF_isSome_iff db startT endT rd
      (timeOffsetOf (db.deploymentData.foldl (fun d p => dictInsert d p.1 p.2) []))
      (querySnapshot st db startT endT rd lastCam)
      (querySnapshot_cameras st db startT endT rd lastCam)
      (querySnapshot_imageData st db startT endT rd lastCam)
    simp only []
    cases hts : getTimespanF (querySnapshot st db startT endT rd lastCam) with
    | none =>
      rw [hts] at hiff
      simp only [Option.isSome_none, Bool.false_eq_true, false_iff] at hiff
      simp only [Option.isSome_none, Bool.false_eq_true, false_iff]
      intro hc
      exact hiff hc.2
    | some p =>
      obtain ⟨t0, t1⟩ := p
      rw [hts] at hiff
      simp only [Option.isSome_some, true_iff] at hiff
      simp only [Option.isSome_some, true_iff]
      exact ⟨hcams, hiff⟩

/-- C9: with a live connection, `query` completes normally exactly when the
store has at least one known camera and every known camera has at least one
image row passing the window/discard filter; otherwise it raises (the
unbound loop variable at the index build, or the `min()` over an empty key
set in `getTimespan`) instead of returning an empty snapshot. -/
theorem query_succeeds_iff_cameras_nonempty (st : Meta) (db : DB)
    (startT endT : Option ℚ) (rd : Bool) (c : String)
    (hconn : st.dbConnectionName = some c) :
    (queryF st db startT endT rd).isSome = true ↔
      (camerasList db ≠ [] ∧
        ∀ cam ∈ camerasList db, filteredNumbers db cam startT endT rd ≠ []) := by
  rw [queryF, hconn]
  rw [queryOpen_isSome_iff]
  constructor
  · rintro ⟨h1, h2⟩
    refine ⟨h1, fun cam hcam => ?_⟩
    simpa [filteredNumbers] using h2 cam hcam
  · rintro ⟨h1, h2⟩
    refine ⟨h1, fun cam hcam => ?_⟩
    have := h2 cam hcam
    simpa [filteredNumbers] using this

/-- Closed instance of `query_succeeds_iff_cameras_nonempty` over
`dbTwoCams`, where the query succeeds. -/
theorem query_succeeds_iff_cameras_nonempty_witness :
    stOpen.dbConnectionName = some "CTMetadata" ∧
    ((queryF stOpen dbTwoCams none none false).isSome = true ↔
      (camerasList dbTwoCams ≠ [] ∧
        ∀ cam ∈ camerasList dbTwoCams,
          filteredNumbers dbTwoCams cam none none false ≠ [])) :=
  ⟨rfl, query_succeeds_iff_cameras_nonempty stOpen dbTwoCams none none false
    "CTMetadata" rfl⟩

theorem getLast?_map {α β : Type} (f : α → β) (l : List α) :
    (l.map f).getLast? = l.getLast?.map f := by
  induction l with
  | nil => rfl
  | cons a rest ih =>
    cases rest with
    | nil => rfl
    | cons b rest2 =>
      simp only [List.map_cons, List.getLast?_cons_cons] at ih ⊢
      exact ih

theorem mem_of_getLast?_eq {α : Type} (l : List α) (a : α) (h : l.getLast? = some a) :
    a ∈ l := by
  rcases List.eq_nil_or_concat l with rfl | ⟨L, b, rfl⟩
  · cases h
  · rw [List.concat_eq_append, List.getLast?_concat] at h
    cases h
    simp

theorem foldl_loadCam_start_flatten (db : DB) (startT endT : Option ℚ) (rd : Bool)
    (toff : ℚ) (cams : List String) (acc : LoadAcc)
    (hn : ∀ r ∈ db.images, r.number ≠ -1)
    (hall : ∀ c ∈ cams, filteredRows db c startT endT rd ≠ [])
    (ha : acc.startImage = -1) (hcams : cams ≠ []) :
    ((cams.map (fun c => filteredNumbers db c startT endT rd)).flatten).head? =
      some ((cams.foldl (loadCam db startT endT rd toff) acc).startImage) := by
  cases cams with
  | nil => exact absurd rfl hcams
  | cons c rest =>
    cases hrows : filteredRows db c startT endT rd with
    | nil => exact absurd hrows (hall c (List.mem_cons_self _ _))
    | cons r rs =>
      have hr : r.number ≠ -1 :=
        hn r (mem_of_mem_filteredRows db c startT endT rd r (by rw [hrows]; simp))
      have hstep : (loadCam db startT endT rd toff acc c).startImage = r.number := by
        simp only [loadCam, hrows]
        rw [ha]
        exact loadRow_foldl_start_cons rs toff acc.endImage [] r hr
      rw [List.foldl_cons,
        foldl_loadCam_start_stable db startT endT rd toff rest _
          (by rw [hstep]; exact hr), hstep]
      simp [filteredNumbers, hrows]

theorem foldl_loadCam_end_of_getLast (db : DB) (startT endT : Option ℚ) (rd : Bool)
    (toff : ℚ) (cams : List String) (lastCam : String) (acc : LoadAcc)
    (hlast : cams.getLast? = some lastCam) (r : ImageRow)
    (hr : (filteredRows db lastCam startT endT rd).getLast? = some r) :
    (cams.foldl (loadCam db startT endT rd toff) acc).endImage = r.number := by
  rcases List.eq_nil_or_concat cams with rfl | ⟨L, b, rfl⟩
  · cases hlast
  · rw [List.concat_eq_append, List.getLast?_concat] at hlast
    cases hlast
    rw [List.concat_eq_append]
    exact foldl_loadCam_end_last db startT endT rd toff L lastCam acc r hr

/-- C2: after a successful `query` on an open store (over frame numbers
distinct from the -1 latch sentinel), `startImage` is the first frame
number encountered across all cameras in camera iteration order that
passes the discard/time filter (a first-write-wins latch), and `endImage`
is the last frame of the final iterated camera's filtered set
(continuously overwritten). -/
theorem query_startImage_endImage_latch (st : Meta) (db : DB)
    (startT endT : Option ℚ) (rd : Bool) (c : String) (st2 : Meta)
    (hconn : st.dbConnectionName = some c)
    (hn : ∀ r ∈ db.images, r.number ≠ -1)
    (hq : queryF st db startT endT rd = some st2) :
    ((camerasList db).map
        (fun cam => filteredNumbers db cam startT endT rd)).flatten.head? =
      some st2.startImage ∧
    ((camerasList db).getLast?.bind
        (fun cam => (filteredNumbers db cam startT endT rd).getLast?)) =
      some st2.endImage := by
  have hcond := (query_succeeds_iff_cameras_nonempty st db startT endT rd c hconn).mp
    (by rw [hq]; rfl)
  obtain ⟨hcams, hall⟩ := hcond
  have hallrows : ∀ cam ∈ camerasList db, filteredRows db cam startT endT rd ≠ [] := by
    intro cam hcam h
    exact hall cam hcam (by simp [filteredNumbers, h])
  rw [queryF, hconn, queryOpen] at hq
  cases hlast : (camerasList db).getLast? with
  | none =>
    rw [List.getLast?_eq_none_iff] at hlast
    exact absurd hlast hcams
  | some lastCam =>
    rw [hlast] at hq
    simp only [] at hq
    cases hts : getTimespanF (querySnapshot st db startT endT rd lastCam) with
    | none =>
      rw [hts] at hq
      cases hq
    | some p =>
      obtain ⟨t0, t1⟩ := p
      rw [hts] at hq
      have hst2 := Option.some.inj hq
      have hstart : st2.startImage =
          (querySnapshot st db startT endT rd lastCam).startImage := by
        rw [← hst2]
      have hend : st2.endImage =
          (querySnapshot st db startT endT rd lastCam).endImage := by
        rw [← hst2]
      constructor
      · rw [hstart, querySnapshot_startImage]
        exact foldl_loadCam_start_flatten db startT endT rd _ (camerasList db)
          ⟨-1, 0, []⟩ hn hallrows rfl hcams
      · have hmem : lastCam ∈ camerasList db := mem_of_getLast?_eq _ _ hlast
        cases hrl : (filteredRows db lastCam startT endT rd).getLast? with
        | none =>
          rw [List.getLast?_eq_none_iff] at hrl
          exact absurd hrl (hallrows lastCam hmem)
        | some r =>
          rw [hend, querySnapshot_endImage]
          rw [foldl_loadCam_end_of_getLast db startT endT rd _ (camerasList db)
            lastCam ⟨-1, 0, []⟩ hlast r hrl]
          simp only [Option.some_bind]
          rw [filteredNumbers, getLast?_map, hrl]
          rfl

/-- Closed instance of `query_startImage_endImage_latch` over `dbTwoCams`:
startImage 1 (camera A's first frame), endImage 3 (camera B's last). -/
theorem query_startImage_endImage_latch_witness :
    stOpen.dbConnectionName = some "CTMetadata" ∧
    dbTwoCams.images.all (fun r => r.number ≠ -1) = true ∧
    ((camerasList dbTwoCams).map
        (fun cam => filteredNumbers dbTwoCams cam none none false)).flatten.head? =
      some (((queryF stOpen dbTwoCams none none false).getD stOpen).startImage) ∧
    ((camerasList dbTwoCams).getLast?.bind
        (fun cam => (filteredNumbers dbTwoCams cam none none false).getLast?)) =
      some (((queryF stOpen dbTwoCams none none false).getD stOpen).endImage) := by
  have hsome : (queryF stOpen dbTwoCams none none false).isSome = true := by decide
  have hq : queryF stOpen dbTwoCams none none false =
      some ((queryF stOpen dbTwoCams none none false).getD stOpen) := by
    cases hqq : queryF stOpen dbTwoCams none none false with
    | none => rw [hqq] at hsome; cases hsome
    | some v => rfl
  have hmain := query_startImage_endImage_latch stOpen dbTwoCams none none false
    "CTMetadata" _ rfl (by decide) hq
  exact ⟨rfl, by decide, hmain.1, hmain.2⟩

theorem dictLookup_eq_none_of_not_hasKey {κ α : Type} [DecidableEq κ]
    (l : List (κ × α)) (k : κ) (h : dictHasKey l k = false) :
    dictLookup l k = none := by
  induction l with
  | nil => rfl
  | cons p rest ih =>
    simp only [dictHasKey, List.any_cons, Bool.or_eq_false_iff,
      decide_eq_false_iff_not] at h
    simp only [dictLookup, h.1, if_false]
    exact ih (by simp [dictHasKey, h.2])

theorem locBounds_locations (st : LocState) (la lo : ℚ) :
    (locBounds st la lo).locations = st.locations := by
  simp [locBounds, apply_ite LocState.locations]

theorem locStep_locations (parse : String → Option Nmea) (st : LocState)
    (row : Int × String) :
    (locStep parse st row).locations =
      if dictHasKey st.locations row.1 then st.locations
      else
        match parse row.2 with
        | none => st.locations
        | some m =>
          if nmeaFires m then dictInsert st.locations row.1 (m.lat, m.lon)
          else st.locations := by
  by_cases hk : dictHasKey st.locations row.1
  · simp [locStep, hk]
  · cases hp : parse row.2 with
    | none => simp [locStep, hk, hp]
    | some m =>
      by_cases hf : nmeaFires m
      · simp [locStep, hk, hp, hf, dictLookup_dictInsert_self, locBounds_locations]
      · have hnone : dictLookup st.locations row.1 = none :=
          dictLookup_eq_none_of_not_hasKey _ _ (by simpa using hk)
        simp [locStep, hk, hp, hf, hnone]

theorem locFold_lookup_stable (parse : String → Option Nmea)
    (rows : List (Int × String)) (st : LocState) (f : Int)
    (hk : dictHasKey st.locations f = true) :
    dictLookup ((rows.foldl (locStep parse) st).locations) f =
      dictLookup st.locations f := by
  induction rows generalizing st with
  | nil => rfl
  | cons r rest ih =>
    rw [List.foldl_cons]
    have hloc := locStep_locations parse st r
    by_cases hkr : dictHasKey st.locations r.1
    · rw [if_pos hkr] at hloc
      rw [ih _ (by rw [hloc]; exact hk), hloc]
    · have hrf : r.1 ≠ f := by
        intro he
        rw [he] at hkr
        exact hkr hk
      rw [if_neg hkr] at hloc
      cases hp : parse r.2 with
      | none =>
        rw [hp] at hloc; dsimp only at hloc
        rw [ih _ (by rw [hloc]; exact hk), hloc]
      | some m =>
        rw [hp] at hloc; dsimp only at hloc
        by_cases hf : nmeaFires m
        · rw [if_pos hf] at hloc
          rw [ih _ (by rw [hloc, dictHasKey_dictInsert_ne _ _ _ _ (Ne.symm hrf)]; exact hk),
            hloc, dictLookup_dictInsert_ne _ _ _ _ (Ne.symm hrf)]
        · rw [if_neg hf] at hloc
          rw [ih _ (by rw [hloc]; exact hk), hloc]

theorem locFold_lookup_first (parse : String → Option Nmea)
    (rows : List (Int × String)) (st : LocState) (f : Int)
    (hk : dictHasKey st.locations f = false) :
    dictLookup ((rows.foldl (locStep parse) st).locations) f =
      firstFiringFix parse rows f := by
  induction rows generalizing st with
  | nil =>
    simp only [List.foldl_nil, firstFiringFix]
    exact dictLookup_eq_none_of_not_hasKey _ _ hk
  | cons r rest ih =>
    rw [List.foldl_cons]
    have hloc := locStep_locations parse st r
    by_cases hrf : r.1 = f
    · have hkr : dictHasKey st.locations r.1 = false := by rw [hrf]; exact hk
      rw [if_neg (by simp [hkr])] at hloc
      cases hp : parse r.2 with
      | none =>
        rw [hp] at hloc; dsimp only at hloc
        rw [ih _ (by rw [hloc]; exact hk)]
        simp [firstFiringFix, hrf, hp]
      | some m =>
        rw [hp] at hloc; dsimp only at hloc
        by_cases hf : nmeaFires m
        · rw [if_pos hf] at hloc
          have hk2 : dictHasKey ((locStep parse st r).locations) f = true := by
            rw [hloc, hrf]
            exact dictHasKey_dictInsert_self _ _ _
          rw [locFold_lookup_stable parse rest _ f hk2, hloc, hrf,
            dictLookup_dictInsert_self]
          simp [firstFiringFix, hrf, hp, hf]
        · rw [if_neg hf] at hloc
          rw [ih _ (by rw [hloc]; exact hk)]
          simp [firstFiringFix, hrf, hp, hf]
    · have step : dictHasKey ((locStep parse st r).locations) f = false := by
        by_cases hkr : dictHasKey st.locations r.1
        · rw [if_pos hkr] at hloc
          rw [hloc]
          exact hk
        · rw [if_neg hkr] at hloc
          cases hp : parse r.2 with
          | none => rw [hp] at hloc; dsimp only at hloc; rw [hloc]; exact hk
          | some m =>
            rw [hp] at hloc; dsimp only at hloc
            by_cases hf : nmeaFires m
            · rw [if_pos hf] at hloc
              rw [hloc, dictHasKey_dictInsert_ne _ _ _ _ (Ne.symm hrf)]
              exact hk
            · rw [if_neg hf] at hloc
              rw [hloc]
              exact hk
      rw [ih _ step]
      simp [firstFiringFix, hrf]

theorem foldl_locStep_headers (parse : String → Option Nmea)
    (headers : List (String × List (Int × String))) (init : LocState) :
    headers.foldl (fun st h => h.2.foldl (locStep parse) st) init =
      ((headers.map Prod.snd).flatten).foldl (locStep parse) init := by
  induction headers generalizing init with
  | nil => rfl
  | cons h rest ih =>
    rw [List.foldl_cons, List.map_cons, List.flatten_cons, List.foldl_append, ih]

/-- A positioning parser stub whose messages carry lat 7, lon 8, no status
attribute, and the given quality value — the spec's quality-gating example. -/
def gpsParseQ (q : Int) : String → Option Nmea := fun _ => some ⟨7, 8, none, some q⟩

/-- Loaded sensor data with one GPS datagram for frame 1. -/
def sdGPS : SensorDict := [("GPS", [("$GPGGA", [(1, "payload")])])]

/-- C4: the per-frame location map `getLocations` returns is exactly the
first-firing-fix semantics: frame `f` gets the lat/lon of the first
traversed datagram for `f` that parses and passes the validity gate
(`nmeaFires`: status must lower to "a"; else quality must be positive;
neither attribute accepts unconditionally), and later datagrams never
change it.  In particular a quality-0 sentence sets no location and a
quality-1 sentence does. -/
theorem locations_first_firing_fix :
    (∀ (parse : String → Option Nmea) (sd : SensorDict) (sid : String) (f : Int),
      dictLookup (getLocationsF parse sd sid).2 f =
        firstFiringFix parse (locRows sd (resolveSensorID sd sid)) f) ∧
    dictLookup (getLocationsF (gpsParseQ 0) sdGPS "GPS").2 1 = none ∧
    dictLookup (getLocationsF (gpsParseQ 1) sdGPS "GPS").2 1 = some (7, 8) := by
  refine ⟨?_, by decide, by decide⟩
  intro parse sd sid f
  cases hl : dictLookup sd (resolveSensorID sd sid) with
  | none => simp [getLocationsF, locRows, hl, firstFiringFix, dictLookup]
  | some headers =>
    simp only [getLocationsF, locRows, hl]
    rw [foldl_locStep_headers]
    exact locFold_lookup_first parse _ _ f rfl

/-- The successfully parsed depths of a datagram list, in traversal order. -/
def parsedDepths (rows : List (Int × String)) (fieldNum : Nat) (sep : Char) : List ℚ :=
  rows.filterMap (fun r => depthField? r.2 fieldNum sep)

/-- Bounds fold of the amended depth claim: a parsed depth replaces the
maximum when strictly greater, otherwise replaces the minimum when strictly
smaller (so a new maximum never lowers the minimum). -/
def elifMinMax (l : List ℚ) (mm : ℚ × ℚ) : ℚ × ℚ :=
  l.foldl
    (fun mm2 d =>
      if d > mm2.2 then (mm2.1, d) else if d < mm2.1 then (d, mm2.2) else mm2) mm

theorem depthStep_foldl_split (rows : List (Int × String)) (i : Nat) (sep : Char)
    (mn mx : ℚ) (ds : List (Int × Option ℚ)) :
    rows.foldl (depthStep i sep) (mn, mx, ds) =
      ((elifMinMax (parsedDepths rows i sep) (mn, mx)).1,
       (elifMinMax (parsedDepths rows i sep) (mn, mx)).2,
       rows.foldl (fun ds2 r => dictInsert ds2 r.1 (depthField? r.2 i sep)) ds) := by
  induction rows generalizing mn mx ds with
  | nil => simp [elifMinMax, parsedDepths]
  | cons r rest ih =>
    simp only [List.foldl_cons, parsedDepths, List.filterMap_cons]
    cases hp : depthField? r.2 i sep with
    | none =>
      dsimp only
      rw [show depthStep i sep (mn, mx, ds) r = (mn, mx, dictInsert ds r.1 none) from
        by simp [depthStep, hp]]
      exact ih mn mx _
    | some d =>
      dsimp only
      by_cases h1 : d > mx
      · rw [show depthStep i sep (mn, mx, ds) r =
          (mn, d, dictInsert ds r.1 (some d)) from by simp [depthStep, hp, h1]]
        rw [ih mn d _]
        simp [elifMinMax, parsedDepths, h1]
      · by_cases h2 : d < mn
        · rw [show depthStep i sep (mn, mx, ds) r =
            (d, mx, dictInsert ds r.1 (some d)) from by simp [depthStep, hp, h1, h2]]
          rw [ih d mx _]
          simp [elifMinMax, parsedDepths, h1, h2]
        · rw [show depthStep i sep (mn, mx, ds) r =
            (mn, mx, dictInsert ds r.1 (some d)) from by simp [depthStep, hp, h1, h2]]
          rw [ih mn mx _]
          simp [elifMinMax, parsedDepths, h1, h2]

theorem elifMinMax_snd (l : List ℚ) (mm : ℚ × ℚ) :
    (elifMinMax l mm).2 = l.foldl max mm.2 := by
  induction l generalizing mm with
  | nil => rfl
  | cons d rest ih =>
    simp only [elifMinMax, List.foldl_cons] at ih ⊢
    by_cases h1 : d > mm.2
    · rw [if_pos h1, max_eq_right (le_of_lt h1)]
      exact ih (mm.1, d)
    · rw [if_neg h1, max_eq_left (le_of_not_lt h1)]
      by_cases h2 : d < mm.1
      · rw [if_pos h2]
        exact ih (d, mm.2)
      · rw [if_neg h2]
        exact ih mm

/-- The spec's depth example datagram, recorded for frame 7. -/
def rowsOHPR : List (Int × String) := [(7, "$OHPR,1,2,3,-999.0,15.5,0,0,0*00")]

/-- Loaded sensor data holding only the example attitude datagram. -/
def sdOHPR : SensorDict := [("CTControl", [("$OHPR", rowsOHPR)])]

/-- C6 counterexample: on the claim's own example input the returned
minimum is the 999999 sentinel, not the minimum (15.5) of the successfully
parsed depths — the `elif` at CamtrawlMetadata.py:190 skips the minimum
update whenever the depth sets a new maximum. -/
theorem getDepths_min_not_running_minimum :
    (getDepthsF sdOHPR "CTControl" "$OHPR" 5 ',').1 = 999999 ∧
    parsedDepths rowsOHPR 5 ',' = [mkRat 31 2] ∧
    (parsedDepths rowsOHPR 5 ',').foldl min 999999 = mkRat 31 2 ∧
    (999999 : ℚ) ≠ mkRat 31 2 := by
  refine ⟨by decide, by decide, by decide, by decide⟩

/-- C6 (amended): `getDepths` splits the payload on the separator and
parses the field at the given index as a float; the per-frame mapping binds
each frame to its parse result (`none` on failure, which also leaves the
bounds alone); the returned maximum is the running maximum of the
successfully parsed depths over the -999999 sentinel, while the returned
minimum follows the source's if/elif fold (`elifMinMax`): a depth strictly
above the current maximum never updates the minimum.  The example payload
still yields depth 15.5 for its frame. -/
theorem getDepths_amended_characterization :
    (∀ (sd : SensorDict) (sid hdr : String) (hs : List (String × List (Int × String)))
      (rows : List (Int × String)) (i : Nat) (sep : Char),
      dictLookup sd sid = some hs → dictLookup hs hdr = some rows →
      getDepthsF sd sid hdr i sep =
        ((elifMinMax (parsedDepths rows i sep) (999999, -999999)).1,
         (parsedDepths rows i sep).foldl max (-999999),
         rows.foldl (fun ds r => dictInsert ds r.1 (depthField? r.2 i sep)) [])) ∧
    dictLookup (getDepthsF sdOHPR "CTControl" "$OHPR" 5 ',').2.2 7 =
      some (some (mkRat 31 2)) := by
  constructor
  · intro sd sid hdr hs rows i sep h1 h2
    rw [getDepthsF, h1]
    dsimp only
    rw [h2]
    dsimp only
    rw [depthStep_foldl_split rows i sep 999999 (-999999) []]
    rw [elifMinMax_snd]
  · decide

/-- Closed instance of `getDepths_amended_characterization` at the example
sensor data. -/
theorem getDepths_amended_characterization_witness :
    dictLookup sdOHPR "CTControl" = some [("$OHPR", rowsOHPR)] ∧
    dictLookup [("$OHPR", rowsOHPR)] "$OHPR" = some rowsOHPR ∧
    getDepthsF sdOHPR "CTControl" "$OHPR" 5 ',' =
      ((elifMinMax (parsedDepths rowsOHPR 5 ',') (999999, -999999)).1,
       (parsedDepths rowsOHPR 5 ',').foldl max (-999999),
       rowsOHPR.foldl (fun ds r => dictInsert ds r.1 (depthField? r.2 5 ',')) []) :=
  ⟨rfl, rfl, getDepths_amended_characterization.1 sdOHPR "CTControl" "$OHPR"
    [("$OHPR", rowsOHPR)] rowsOHPR 5 ',' rfl rfl⟩
